import Mathlib

/-!
Formal model of the UFO-sightings cleaning and aggregation pipeline in
`src/main.py`.  The dataframe operations of the source are all row-wise
(per-cell parses, row filters, per-cell normalisations), so they are
embedded as per-record functions over lists of records.  Parsed cells are
modelled as `Option` values: `none` stands for a NaN/NaT produced by
`pd.to_datetime(…, errors='coerce')` / `pd.to_numeric(…, errors='coerce')`
or for a missing cell of a string column.  Numbers are embedded as `ℚ`;
the logarithmic magnitude transform of the globe exporter is embedded over
`ℝ` with `Real.log`.
-/

/-- Whitespace test used by Python `str.strip`: the space character and the
ASCII control whitespace characters (tab through carriage return). -/
def isPySpace (c : Char) : Bool :=
  decide (c.toNat = 32 ∨ (9 ≤ c.toNat ∧ c.toNat ≤ 13))

/-- Python `str.strip` on a character list: drop leading and trailing
whitespace. -/
def stripChars (l : List Char) : List Char :=
  ((l.dropWhile isPySpace).reverse.dropWhile isPySpace).reverse

/-- Python `str.strip`. -/
def pyStrip (s : String) : String := String.mk (stripChars s.data)

/-- ASCII lowercasing of one character, the effect of Python `str.lower` on
the ASCII range (codes 65–90 shift to 97–122). -/
def lowerChar (c : Char) : Char :=
  if 65 ≤ c.toNat ∧ c.toNat ≤ 90 then Char.ofNat (c.toNat + 32) else c

/-- ASCII uppercasing of one character, the effect of Python `str.upper` on
the ASCII range (codes 97–122 shift to 65–90). -/
def upperChar (c : Char) : Char :=
  if 97 ≤ c.toNat ∧ c.toNat ≤ 122 then Char.ofNat (c.toNat - 32) else c

/-- Python `str.lower` (on the ASCII range). -/
def pyLower (s : String) : String := String.mk (s.data.map lowerChar)

/-- Python `str.upper` (on the ASCII range). -/
def pyUpper (s : String) : String := String.mk (s.data.map upperChar)

/-- Pandas `.astype(str)` applied to one cell of a string column: a missing
cell (a float NaN in the dataframe) is stringified to the literal `"nan"`;
a present string cell is kept as is. -/
def pyStr : Option String → String
  | none => "nan"
  | some s => s

/-- Result of `pd.to_datetime` on one cell: the components the pipeline
extracts from it (`dt.year`, `dt.month`, `dt.hour`). -/
structure Timestamp where
  year : Int
  month : Nat
  hour : Nat
deriving DecidableEq

/-- One raw row, after the per-cell parses that `clean_data` performs:
`none` in a field models a NaT/NaN parse failure or a missing cell. -/
structure RawRecord where
  datetime : Option Timestamp
  duration_seconds : Option ℚ
  latitude : Option ℚ
  longitude : Option ℚ
  shape : Option String
  country : Option String
  state : Option String
deriving DecidableEq

/-- One row of the cleaned dataframe. -/
structure CleanRecord where
  datetime : Timestamp
  year : Int
  month : Nat
  hour : Nat
  duration_seconds : ℚ
  latitude : ℚ
  longitude : ℚ
  shape : String
  country : String
  state : String
deriving DecidableEq

/-- Shape normalisation of `clean_data` (src/main.py lines 38–42):
`astype(str).str.lower().str.strip()`, then the replace list
`['unknown', 'other', 'nan', '', 'na', 'unspecified']` collapses to
`'various'`.  The trailing `fillna('various')` is a no-op: after
`astype(str)` the column holds no NaN. -/
def cleanShape (o : Option String) : String :=
  let s := pyStrip (pyLower (pyStr o))
  if s = "unknown" ∨ s = "other" ∨ s = "nan" ∨ s = "" ∨ s = "na" ∨ s = "unspecified"
  then "various" else s

/-- Country normalisation of `clean_data` (src/main.py lines 44–48):
`astype(str).str.lower().str.strip()`, then `'gb'` is remapped to `'uk'`
and `''` to `'unknown'`.  The trailing `fillna('unknown')` is a no-op:
after `astype(str)` the column holds no NaN (a missing cell has already
become the string `"nan"`). -/
def cleanCountry (o : Option String) : String :=
  let s := pyStrip (pyLower (pyStr o))
  if s = "gb" then "uk" else if s = "" then "unknown" else s

/-- State normalisation of `clean_data` (src/main.py lines 51–54):
`astype(str).str.upper().str.strip()`, then `''` becomes `'UNKNOWN'`.  The
trailing `fillna('UNKNOWN')` is a no-op, as for the country column. -/
def cleanState (o : Option String) : String :=
  let s := pyStrip (pyUpper (pyStr o))
  if s = "" then "UNKNOWN" else s

/-- The per-row action of `clean_data` (src/main.py lines 8–57), in source
order: drop on failed datetime parse; derive year/month/hour; drop unless
`0 < duration_seconds < 604800`; drop on failed latitude/longitude parse;
drop unless `-90 ≤ latitude ≤ 90` and `-180 ≤ longitude ≤ 180`; then
normalise shape, country and state (never dropping). -/
def cleanRecord (r : RawRecord) : Option CleanRecord :=
  match r.datetime with
  | none => none
  | some ts =>
    match r.duration_seconds with
    | none => none
    | some d =>
      if 0 < d ∧ d < 604800 then
        match r.latitude, r.longitude with
        | some la, some lo =>
          if (-90 ≤ la ∧ la ≤ 90) ∧ (-180 ≤ lo ∧ lo ≤ 180) then
            some { datetime := ts, year := ts.year, month := ts.month,
                   hour := ts.hour, duration_seconds := d, latitude := la,
                   longitude := lo, shape := cleanShape r.shape,
                   country := cleanCountry r.country,
                   state := cleanState r.state }
          else none
        | _, _ => none
      else none

/-- The Cleaner `clean_data`: every dataframe operation it performs is
row-wise, so the whole function is the row action mapped over the rows,
keeping the rows that survive every filter. -/
def clean_data (rs : List RawRecord) : List CleanRecord :=
  rs.filterMap cleanRecord

/-- Ascending list of the distinct values occurring in `l`: the index of a
pandas `value_counts().sort_index()`. -/
def ascKeys {K : Type} [LinearOrder K] (l : List K) : List K :=
  List.insertionSort (· ≤ ·) l.dedup

/-- The grouping `value_counts().sort_index()` of a column: one
(key, count) pair per distinct key, in ascending key order. -/
def valueCountsAsc {K : Type} [LinearOrder K] (l : List K) : List (K × Nat) :=
  (ascKeys l).map (fun k => (k, l.count k))

/-- Fold of pandas `Series.idxmax` over the remaining rows: the current
best row is replaced only on a strictly greater value, so the first row
attaining the maximum wins. -/
def idxmaxAux {K : Type} : K × Nat → List (K × Nat) → K × Nat
  | b, [] => b
  | b, p :: t => if b.2 < p.2 then idxmaxAux p t else idxmaxAux b t

/-- Pandas `Series.idxmax`: the index label of the first occurrence of the
maximum value; `none` models the empty-series guards of the source. -/
def idxmax {K : Type} : List (K × Nat) → Option K
  | [] => none
  | p :: t => some (idxmaxAux p t).1

/-- Month names as produced by `pd.Timestamp(...).strftime('%b')` for the
months 1–12; any other index value is left as its numeric rendering
(pandas `rename` leaves keys missing from the map unchanged). -/
def monthName (m : Nat) : String :=
  if m = 1 then "Jan" else if m = 2 then "Feb" else if m = 3 then "Mar"
  else if m = 4 then "Apr" else if m = 5 then "May" else if m = 6 then "Jun"
  else if m = 7 then "Jul" else if m = 8 then "Aug" else if m = 9 then "Sep"
  else if m = 10 then "Oct" else if m = 11 then "Nov" else if m = 12 then "Dec"
  else toString m

/-- Pandas `Series.median`: `none` on an empty series, otherwise the middle
element of the sorted values (odd length) or the mean of the two middle
elements (even length). -/
def median (l : List ℚ) : Option ℚ :=
  if l = [] then none
  else
    let s := List.insertionSort (· ≤ ·) l
    let n := s.length
    if n % 2 = 1 then some (s.getD (n / 2) 0)
    else some ((s.getD (n / 2 - 1) 0 + s.getD (n / 2) 0) / 2)

/-- Rounding to the nearest integer with halves to even, the behaviour of
Python `round` on an exactly representable value. -/
def roundHalfEven (q : ℚ) : ℤ :=
  if q - ⌊q⌋ < 1 / 2 then ⌊q⌋
  else if 1 / 2 < q - ⌊q⌋ then ⌊q⌋ + 1
  else if ⌊q⌋ % 2 = 0 then ⌊q⌋ else ⌊q⌋ + 1

/-- Python `round(x, 2)`. -/
def round2 (q : ℚ) : ℚ := (roundHalfEven (q * 100) : ℚ) / 100

/-- Peak month key: the idxmax of the month grouping. -/
def peakMonthKey (rs : List CleanRecord) : Option Nat :=
  idxmax (valueCountsAsc (rs.map (fun r => r.month)))

/-- Peak hour key: the idxmax of the hour grouping. -/
def peakHourKey (rs : List CleanRecord) : Option Nat :=
  idxmax (valueCountsAsc (rs.map (fun r => r.hour)))

/-- Peak year key: the idxmax of the year grouping. -/
def peakYearKey (rs : List CleanRecord) : Option Int :=
  idxmax (valueCountsAsc (rs.map (fun r => r.year)))

/-- The summary dictionary built by `perform_eda` (src/main.py lines
59–189), restricted to the fields the claims are about; the top-N ranking
fields (`top_countries`, `top_states_us`, `top_shapes`, the two
most-common-shape fields, `median_durations_by_top_shapes`, the peak-hour
shape distribution) and the night/day medians are not modelled. -/
structure Summary where
  total_sightings : Nat
  median_duration_seconds_overall : Option ℚ
  peak_month : String
  peak_hour_readable : String
  peak_hour_numeric : Option Nat
  peak_year_of_reports : String
  proportion_over_5_min_percent : ℚ
  proportion_over_1_hour_percent : ℚ
  sightings_by_year : List (Int × Nat)
  sightings_by_month : List (String × Nat)
  sightings_by_hour : List (Nat × Nat)
deriving DecidableEq

/-- The Summary Builder `perform_eda`.  `peak_month` is
`sightings_by_month_named.idxmax()`: in the source the rename to month
names precedes the idxmax but preserves row order, so it is the month name
of the idxmax of the numeric month grouping.  `peak_year_of_reports` is
`str(sightings_by_year.idxmax())`.  The long-duration proportions use the
strict comparisons of the source and divide by the row count only when it
is positive. -/
def perform_eda (rs : List CleanRecord) : Summary :=
  let nLong := (rs.filter (fun r => 300 < r.duration_seconds)).length
  let nVeryLong := (rs.filter (fun r => 3600 < r.duration_seconds)).length
  let pLong : ℚ := if 0 < rs.length then (nLong : ℚ) / (rs.length : ℚ) * 100 else 0
  let pVeryLong : ℚ :=
    if 0 < rs.length then (nVeryLong : ℚ) / (rs.length : ℚ) * 100 else 0
  { total_sightings := rs.length
    median_duration_seconds_overall := median (rs.map (fun r => r.duration_seconds))
    peak_month := match peakMonthKey rs with
      | some m => monthName m
      | none => "N/A"
    peak_hour_readable := match peakHourKey rs with
      | some h => toString h ++ ":00 - " ++ toString (h + 1) ++ ":00"
      | none => "N/A"
    peak_hour_numeric := peakHourKey rs
    peak_year_of_reports := match peakYearKey rs with
      | some y => toString y
      | none => "N/A"
    proportion_over_5_min_percent := round2 pLong
    proportion_over_1_hour_percent := round2 pVeryLong
    sightings_by_year := valueCountsAsc (rs.map (fun r => r.year))
    sightings_by_month :=
      (valueCountsAsc (rs.map (fun r => r.month))).map (fun p => (monthName p.1, p.2))
    sightings_by_hour := valueCountsAsc (rs.map (fun r => r.hour)) }

/-- Cap on exported globe points (src/main.py line 6). -/
def MAX_POINTS_ON_GLOBE : Nat := 10000

/-- Model of `pandas.DataFrame.sample(n, random_state=42)`: a fixed,
run-independent selection of `n` distinct rows (sampling without
replacement with a fixed seed).  Which rows the seeded PRNG picks is not
modelled; the model picks the first `n`, which realises the same contract
and carries everything the claims use about the sampler: its size and its
determinism. -/
def sampleFixedSeed (n : Nat) (rs : List CleanRecord) : List CleanRecord :=
  rs.take n

/-- Magnitude transform of `export_globe_data` (src/main.py lines 208–224)
for one duration: clip below by 1e-6, clip into [1, 86400], then
`0.03 + t * 0.25` with `t` the clipped duration's position on the log
scale between log 1 and log 86400.  The source's guard
`log_max_duration_cap > log_min_duration` holds, so the normalised branch
is always taken, and its `fillna(0.03)` is a no-op on non-null durations. -/
noncomputable def magnitude (d : ℚ) : ℝ :=
  let positive_duration : ℚ := max d (1 / 1000000)
  let normalized_duration : ℚ := min (max positive_duration 1) 86400
  let t : ℝ := (Real.log (normalized_duration : ℝ) - Real.log 1) /
    (Real.log 86400 - Real.log 1)
  0.03 + t * 0.25

/-- One point of the globe artifact. -/
structure GlobePoint where
  lat : ℚ
  lng : ℚ
  alt : ℚ
  radius : ℝ
  color : String

/-- One output row of `export_globe_data` (src/main.py lines 229–236). -/
noncomputable def mkGlobePoint (c : CleanRecord) : GlobePoint :=
  { lat := c.latitude, lng := c.longitude, alt := 0.005,
    radius := max 0.01 (magnitude c.duration_seconds),
    color := "rgba(255, 255, 0, 0.7)" }

/-- The Globe Exporter `export_globe_data` (src/main.py lines 191–241) as a
function to the JSON array it writes: an empty input produces the empty
array; more than `MAX_POINTS_ON_GLOBE` rows are sampled down to exactly
`MAX_POINTS_ON_GLOBE`; each remaining row yields one point. -/
noncomputable def export_globe_data (rs : List CleanRecord) : List GlobePoint :=
  if rs = [] then []
  else
    (if MAX_POINTS_ON_GLOBE < rs.length
     then sampleFixedSeed MAX_POINTS_ON_GLOBE rs
     else rs).map mkGlobePoint

/-- The summary artifact `eda_summary.json` of one run: the `__main__`
block writes the empty JSON object `{}` when the cleaned frame is empty
(src/main.py line 328) and the `perform_eda` dictionary otherwise. -/
inductive SummaryArtifact where
  | emptyObject : SummaryArtifact
  | summary : Summary → SummaryArtifact
deriving DecidableEq

/-- Discriminator: is the summary artifact a full summary dictionary (as
opposed to the empty JSON object)? -/
def isFullSummary : SummaryArtifact → Bool
  | SummaryArtifact.summary _ => true
  | SummaryArtifact.emptyObject => false

/-- The `__main__` driver after loading (src/main.py lines 310–353): clean,
then either the empty-frame path (write `{}` as the summary and an empty
globe array, then exit) or the full path (write the `perform_eda` summary
and the globe array). -/
noncomputable def runPipeline (rs : List RawRecord) :
    SummaryArtifact × List GlobePoint :=
  let c := clean_data rs
  if c = [] then (SummaryArtifact.emptyObject, export_globe_data c)
  else (SummaryArtifact.summary (perform_eda c), export_globe_data c)

/-! Lemmas about the Python string primitives, leading to idempotence of
the lower-then-strip and upper-then-strip normalisations. -/

theorem toNat_ofNat_small {n : Nat} (h : n < 55296) : (Char.ofNat n).toNat = n := by
  unfold Char.ofNat
  rw [dif_pos (Or.inl h)]
  rfl

theorem lowerChar_toNat_of_upper {c : Char} (h : 65 ≤ c.toNat ∧ c.toNat ≤ 90) :
    (lowerChar c).toNat = c.toNat + 32 := by
  simp only [lowerChar, if_pos h]
  exact toNat_ofNat_small (by omega)

theorem lowerChar_eq_self {c : Char} (h : ¬(65 ≤ c.toNat ∧ c.toNat ≤ 90)) :
    lowerChar c = c := by
  simp only [lowerChar, if_neg h]

theorem upperChar_toNat_of_lower {c : Char} (h : 97 ≤ c.toNat ∧ c.toNat ≤ 122) :
    (upperChar c).toNat = c.toNat - 32 := by
  simp only [upperChar, if_pos h]
  exact toNat_ofNat_small (by omega)

theorem upperChar_eq_self {c : Char} (h : ¬(97 ≤ c.toNat ∧ c.toNat ≤ 122)) :
    upperChar c = c := by
  simp only [upperChar, if_neg h]

theorem lowerChar_idem (c : Char) : lowerChar (lowerChar c) = lowerChar c := by
  by_cases h : 65 ≤ c.toNat ∧ c.toNat ≤ 90
  · have h2 := lowerChar_toNat_of_upper h
    exact lowerChar_eq_self (by omega)
  · rw [lowerChar_eq_self h, lowerChar_eq_self h]

theorem upperChar_idem (c : Char) : upperChar (upperChar c) = upperChar c := by
  by_cases h : 97 ≤ c.toNat ∧ c.toNat ≤ 122
  · have h2 := upperChar_toNat_of_lower h
    exact upperChar_eq_self (by omega)
  · rw [upperChar_eq_self h, upperChar_eq_self h]

theorem isPySpace_lowerChar (c : Char) : isPySpace (lowerChar c) = isPySpace c := by
  by_cases h : 65 ≤ c.toNat ∧ c.toNat ≤ 90
  · have h2 := lowerChar_toNat_of_upper h
    simp only [isPySpace, decide_eq_decide]
    omega
  · rw [lowerChar_eq_self h]

theorem isPySpace_upperChar (c : Char) : isPySpace (upperChar c) = isPySpace c := by
  by_cases h : 97 ≤ c.toNat ∧ c.toNat ≤ 122
  · have h2 := upperChar_toNat_of_lower h
    simp only [isPySpace, decide_eq_decide]
    omega
  · rw [upperChar_eq_self h]

theorem dropWhile_idem (p : α → Bool) : ∀ l : List α,
    List.dropWhile p (List.dropWhile p l) = List.dropWhile p l
  | [] => rfl
  | c :: t => by
    by_cases h : p c
    · simp [List.dropWhile_cons, h, dropWhile_idem p t]
    · simp [List.dropWhile_cons, h]

theorem dropWhile_eq_self_of_head {p : α → Bool} {l : List α}
    (h : ∀ c, l.head? = some c → p c = false) : List.dropWhile p l = l := by
  cases l with
  | nil => rfl
  | cons c t => simp [List.dropWhile_cons, h c rfl]

theorem head_dropWhile_false {p : α → Bool} : ∀ {l : List α} {c : α},
    (List.dropWhile p l).head? = some c → p c = false := by
  intro l
  induction l with
  | nil => intro c h; cases h
  | cons a t ih =>
    intro c h
    rw [List.dropWhile_cons] at h
    by_cases ha : p a
    · exact ih (by rwa [if_pos ha] at h)
    · rw [if_neg ha] at h
      cases h
      simpa using ha

theorem getLast_dropWhile {p : α → Bool} {l : List α}
    (h : List.dropWhile p l ≠ []) :
    (List.dropWhile p l).getLast? = l.getLast? := by
  obtain ⟨u, hu⟩ := List.dropWhile_suffix (l := l) p
  conv_rhs => rw [← hu]
  rw [List.getLast?_append]
  cases hd : (List.dropWhile p l).getLast? with
  | none => exact absurd (List.getLast?_eq_none_iff.mp hd) h
  | some c => rfl

theorem stripChars_idem (l : List Char) : stripChars (stripChars l) = stripChars l := by
  unfold stripChars
  set z := (List.dropWhile isPySpace l).reverse.dropWhile isPySpace with hz
  by_cases hznil : z = []
  · rw [hznil]; rfl
  · have h1 : List.dropWhile isPySpace z.reverse = z.reverse := by
      apply dropWhile_eq_self_of_head
      intro c hc
      rw [List.head?_reverse] at hc
      rw [hz] at hc
      rw [getLast_dropWhile (by rw [← hz]; exact hznil)] at hc
      rw [List.getLast?_reverse] at hc
      exact head_dropWhile_false hc
    rw [h1, List.reverse_reverse]
    have h2 : List.dropWhile isPySpace z = z := by
      rw [hz]; exact dropWhile_idem _ _
    rw [h2]

theorem stripChars_map_of_space_eq {f : Char → Char}
    (hf : ∀ c, isPySpace (f c) = isPySpace c) (l : List Char) :
    stripChars (l.map f) = (stripChars l).map f := by
  have hdw : ∀ m : List Char,
      List.dropWhile isPySpace (m.map f) = (List.dropWhile isPySpace m).map f := by
    intro m
    have hcomp : isPySpace ∘ f = isPySpace := funext hf
    rw [List.dropWhile_map, hcomp]
  unfold stripChars
  rw [hdw, ← List.map_reverse, hdw, ← List.map_reverse]

theorem map_lowerChar_idem (l : List Char) :
    (l.map lowerChar).map lowerChar = l.map lowerChar := by
  rw [List.map_map]
  congr 1
  funext c
  exact lowerChar_idem c

theorem map_upperChar_idem (l : List Char) :
    (l.map upperChar).map upperChar = l.map upperChar := by
  rw [List.map_map]
  congr 1
  funext c
  exact upperChar_idem c

/-- Idempotence of the lower-then-strip normalisation at the string level. -/
theorem stripLower_idem (s : String) :
    pyStrip (pyLower (pyStrip (pyLower s))) = pyStrip (pyLower s) := by
  show String.mk _ = String.mk _
  congr 1
  show stripChars ((stripChars (s.data.map lowerChar)).map lowerChar)
      = stripChars (s.data.map lowerChar)
  rw [← stripChars_map_of_space_eq isPySpace_lowerChar, map_lowerChar_idem,
    stripChars_idem]

/-- Idempotence of the upper-then-strip normalisation at the string level. -/
theorem stripUpper_idem (s : String) :
    pyStrip (pyUpper (pyStrip (pyUpper s))) = pyStrip (pyUpper s) := by
  show String.mk _ = String.mk _
  congr 1
  show stripChars ((stripChars (s.data.map upperChar)).map upperChar)
      = stripChars (s.data.map upperChar)
  rw [← stripChars_map_of_space_eq isPySpace_upperChar, map_upperChar_idem,
    stripChars_idem]

/-! Characterisation of the Cleaner's row action and the idempotence of the
three categorical normalisations. -/

/-- Exact relation between a raw row that survives `clean_data` and the
clean row it becomes. -/
def CleansTo (r : RawRecord) (c : CleanRecord) : Prop :=
  r.datetime = some c.datetime ∧
  c.year = c.datetime.year ∧ c.month = c.datetime.month ∧ c.hour = c.datetime.hour ∧
  r.duration_seconds = some c.duration_seconds ∧
  0 < c.duration_seconds ∧ c.duration_seconds < 604800 ∧
  r.latitude = some c.latitude ∧ r.longitude = some c.longitude ∧
  -90 ≤ c.latitude ∧ c.latitude ≤ 90 ∧ -180 ≤ c.longitude ∧ c.longitude ≤ 180 ∧
  c.shape = cleanShape r.shape ∧ c.country = cleanCountry r.country ∧
  c.state = cleanState r.state

theorem cleanRecord_eq_some_iff {r : RawRecord} {c : CleanRecord} :
    cleanRecord r = some c ↔ CleansTo r c := by
  constructor
  · intro h
    unfold cleanRecord at h
    split at h
    next => exact Option.noConfusion h
    next ts hdt =>
      split at h
      next => exact Option.noConfusion h
      next d hd =>
        split at h
        next hdur =>
          split at h
          next la lo hla hlo =>
            split at h
            next hrange =>
              injection h with h
              subst h
              exact ⟨hdt, rfl, rfl, rfl, hd, hdur.1, hdur.2, hla, hlo,
                hrange.1.1, hrange.1.2, hrange.2.1, hrange.2.2, rfl, rfl, rfl⟩
            next => exact Option.noConfusion h
          all_goals exact Option.noConfusion h
        next => exact Option.noConfusion h
  · rintro ⟨hdt, hy, hm, hh, hd, hd0, hd1, hla, hlo, h1, h2, h3, h4, hs, hc, hst⟩
    cases c with
    | mk dt y m hr dur la lo sh co st =>
      simp only at hdt hy hm hh hd hd0 hd1 hla hlo h1 h2 h3 h4 hs hc hst
      subst hy hm hh hs hc hst
      simp only [cleanRecord, hdt, hd, hla, hlo]
      rw [if_pos ⟨hd0, hd1⟩, if_pos ⟨⟨h1, h2⟩, ⟨h3, h4⟩⟩]

theorem pyStr_some (s : String) : pyStr (some s) = s := rfl

theorem mem_clean_data {rs : List RawRecord} {c : CleanRecord} :
    c ∈ clean_data rs ↔ ∃ r ∈ rs, cleanRecord r = some c := by
  simp [clean_data, List.mem_filterMap]

theorem cleanShape_idem (o : Option String) :
    cleanShape (some (cleanShape o)) = cleanShape o := by
  by_cases hcol : pyStrip (pyLower (pyStr o)) = "unknown" ∨
      pyStrip (pyLower (pyStr o)) = "other" ∨ pyStrip (pyLower (pyStr o)) = "nan" ∨
      pyStrip (pyLower (pyStr o)) = "" ∨ pyStrip (pyLower (pyStr o)) = "na" ∨
      pyStrip (pyLower (pyStr o)) = "unspecified"
  · have h1 : cleanShape o = "various" := by
      simp only [cleanShape]; rw [if_pos hcol]
    rw [h1]; decide
  · have h1 : cleanShape o = pyStrip (pyLower (pyStr o)) := by
      simp only [cleanShape]; rw [if_neg hcol]
    rw [h1]
    simp only [cleanShape, pyStr_some]
    rw [stripLower_idem, if_neg hcol]

theorem cleanCountry_idem (o : Option String) :
    cleanCountry (some (cleanCountry o)) = cleanCountry o := by
  by_cases hgb : pyStrip (pyLower (pyStr o)) = "gb"
  · have h1 : cleanCountry o = "uk" := by
      simp only [cleanCountry]; rw [if_pos hgb]
    rw [h1]; decide
  · by_cases hemp : pyStrip (pyLower (pyStr o)) = ""
    · have h1 : cleanCountry o = "unknown" := by
        simp only [cleanCountry]; rw [if_neg hgb, if_pos hemp]
      rw [h1]; decide
    · have h1 : cleanCountry o = pyStrip (pyLower (pyStr o)) := by
        simp only [cleanCountry]; rw [if_neg hgb, if_neg hemp]
      rw [h1]
      simp only [cleanCountry, pyStr_some]
      rw [stripLower_idem, if_neg hgb, if_neg hemp]

theorem cleanState_idem (o : Option String) :
    cleanState (some (cleanState o)) = cleanState o := by
  by_cases hemp : pyStrip (pyUpper (pyStr o)) = ""
  · have h1 : cleanState o = "UNKNOWN" := by
      simp only [cleanState]; rw [if_pos hemp]
    rw [h1]; decide
  · have h1 : cleanState o = pyStrip (pyUpper (pyStr o)) := by
      simp only [cleanState]; rw [if_neg hemp]
    rw [h1]
    simp only [cleanState, pyStr_some]
    rw [stripUpper_idem, if_neg hemp]

/-- Re-reading a clean row as a raw row, as a second run of the Cleaner
sees it: every parsed cell is present. -/
def CleanRecord.toRaw (c : CleanRecord) : RawRecord :=
  { datetime := some c.datetime, duration_seconds := some c.duration_seconds,
    latitude := some c.latitude, longitude := some c.longitude,
    shape := some c.shape, country := some c.country, state := some c.state }

theorem cleanRecord_toRaw {r : RawRecord} {c : CleanRecord}
    (h : cleanRecord r = some c) : cleanRecord c.toRaw = some c := by
  obtain ⟨hdt, hy, hm, hh, hd, hd0, hd1, hla, hlo, h1, h2, h3, h4, hs, hc, hst⟩ :=
    cleanRecord_eq_some_iff.mp h
  apply cleanRecord_eq_some_iff.mpr
  refine ⟨rfl, hy, hm, hh, rfl, hd0, hd1, rfl, rfl, h1, h2, h3, h4, ?_, ?_, ?_⟩
  · show c.shape = cleanShape (some c.shape)
    rw [hs, cleanShape_idem]
  · show c.country = cleanCountry (some c.country)
    rw [hc, cleanCountry_idem]
  · show c.state = cleanState (some c.state)
    rw [hst, cleanState_idem]

/-- C6: cleaning is idempotent — applying the Cleaner to its own output
(read back as raw rows) yields the same record set as applying it once. -/
theorem clean_data_idempotent (rs : List RawRecord) :
    clean_data ((clean_data rs).map CleanRecord.toRaw) = clean_data rs := by
  induction rs with
  | nil => rfl
  | cons r t ih =>
    cases h : cleanRecord r with
    | none =>
      simp only [clean_data, List.filterMap_cons, h] at ih ⊢
      exact ih
    | some c =>
      simp only [clean_data, List.filterMap_cons, h, List.map_cons,
        cleanRecord_toRaw h] at ih ⊢
      rw [ih]

/-- A concrete raw row that every filter of the Cleaner accepts. -/
def sampleRaw : RawRecord :=
  { datetime := some ⟨1999, 7, 21⟩, duration_seconds := some 30,
    latitude := some 47, longitude := some (-122),
    shape := some "Disk", country := some " GB ", state := some "wa" }

/-- The clean row the Cleaner produces from `sampleRaw`. -/
def sampleClean : CleanRecord :=
  { datetime := ⟨1999, 7, 21⟩, year := 1999, month := 7, hour := 21,
    duration_seconds := 30, latitude := 47, longitude := -122,
    shape := "disk", country := "uk", state := "WA" }

/-- C4: a raw record whose parsed duration is ≤ 0 or ≥ 604800 (the bounds
themselves included) is dropped by the Cleaner, and every record of the
clean set has duration strictly between 0 and 604800. -/
theorem duration_filter (r : RawRecord) (d : ℚ) (rs : List RawRecord)
    (c : CleanRecord) :
    (r.duration_seconds = some d → d ≤ 0 ∨ 604800 ≤ d → cleanRecord r = none) ∧
    (c ∈ clean_data rs →
      0 < c.duration_seconds ∧ c.duration_seconds < 604800) := by
  constructor
  · intro hd hbad
    cases hdt : r.datetime with
    | none => simp only [cleanRecord, hdt]
    | some ts =>
      simp only [cleanRecord, hdt, hd]
      rw [if_neg]
      rintro ⟨hp, hq⟩
      rcases hbad with hb | hb
      · exact absurd hp (not_lt.mpr hb)
      · exact absurd hq (not_lt.mpr hb)
  · intro hmem
    obtain ⟨r2, hr2, h⟩ := mem_clean_data.mp hmem
    obtain ⟨_, _, _, _, _, hd0, hd1, _⟩ := cleanRecord_eq_some_iff.mp h
    exact ⟨hd0, hd1⟩

theorem duration_filter_witness :
    ({ sampleRaw with duration_seconds := some 0 } : RawRecord).duration_seconds
      = some 0 ∧
    ((0 : ℚ) ≤ 0 ∨ (604800 : ℚ) ≤ 0) ∧
    cleanRecord { sampleRaw with duration_seconds := some 0 } = none ∧
    sampleClean ∈ clean_data [sampleRaw] ∧
    0 < sampleClean.duration_seconds ∧ sampleClean.duration_seconds < 604800 :=
  ⟨rfl, Or.inl le_rfl,
   (duration_filter { sampleRaw with duration_seconds := some 0 } 0 []
      sampleClean).1 rfl (Or.inl le_rfl),
   by decide,
   (duration_filter sampleRaw 30 [sampleRaw] sampleClean).2 (by decide)⟩

/-- C5: every record of the clean set has latitude in [-90, 90] and
longitude in [-180, 180]; and the bounds are inclusive — a raw row that
parses, passes the duration filter and has −90 ≤ lat ≤ 90 and
−180 ≤ lng ≤ 180, the boundary values allowed, is kept. -/
theorem latlong_range (rs : List RawRecord) (c : CleanRecord) (r : RawRecord)
    (ts : Timestamp) (d la lo : ℚ) :
    (c ∈ clean_data rs →
      -90 ≤ c.latitude ∧ c.latitude ≤ 90 ∧
      -180 ≤ c.longitude ∧ c.longitude ≤ 180) ∧
    (r.datetime = some ts → r.duration_seconds = some d → 0 < d → d < 604800 →
      r.latitude = some la → r.longitude = some lo →
      -90 ≤ la → la ≤ 90 → -180 ≤ lo → lo ≤ 180 →
      cleanRecord r ≠ none) := by
  constructor
  · intro hmem
    obtain ⟨r2, hr2, h⟩ := mem_clean_data.mp hmem
    obtain ⟨_, _, _, _, _, _, _, _, _, h1, h2, h3, h4, _⟩ :=
      cleanRecord_eq_some_iff.mp h
    exact ⟨h1, h2, h3, h4⟩
  · intro hdt hd hd0 hd1 hla hlo hla1 hla2 hlo1 hlo2
    have h : cleanRecord r = some
        { datetime := ts, year := ts.year, month := ts.month, hour := ts.hour,
          duration_seconds := d, latitude := la, longitude := lo,
          shape := cleanShape r.shape, country := cleanCountry r.country,
          state := cleanState r.state } :=
      cleanRecord_eq_some_iff.mpr ⟨hdt, rfl, rfl, rfl, hd, hd0, hd1, hla, hlo,
        hla1, hla2, hlo1, hlo2, rfl, rfl, rfl⟩
    rw [h]
    exact Option.noConfusion

theorem latlong_range_witness :
    (sampleClean ∈ clean_data [sampleRaw] ∧
      -90 ≤ sampleClean.latitude ∧ sampleClean.latitude ≤ 90 ∧
      -180 ≤ sampleClean.longitude ∧ sampleClean.longitude ≤ 180) ∧
    cleanRecord { sampleRaw with latitude := some 90, longitude := some (-180) }
      ≠ none :=
  ⟨⟨by decide,
    (latlong_range [sampleRaw] sampleClean sampleRaw ⟨1999, 7, 21⟩ 30 47
      (-122)).1 (by decide)⟩,
   (latlong_range [] sampleClean
      { sampleRaw with latitude := some 90, longitude := some (-180) }
      ⟨1999, 7, 21⟩ 30 90 (-180)).2 rfl rfl (by norm_num) (by norm_num) rfl rfl
      (by norm_num) (by norm_num) (by norm_num) (by norm_num)⟩

/-- C10: a raw record whose shape text, lowercased and trimmed, is "nan"
(for instance the literal cell text "NaN") is given the sentinel shape
"various" in its clean record: the source's collapse list contains 'nan'
in addition to the values the specification lists. -/
theorem shape_nan_various (r : RawRecord) (c : CleanRecord) (s : String)
    (hs : r.shape = some s) (hnan : pyStrip (pyLower s) = "nan")
    (h : cleanRecord r = some c) : c.shape = "various" := by
  obtain ⟨_, _, _, _, _, _, _, _, _, _, _, _, _, hsh, _, _⟩ :=
    cleanRecord_eq_some_iff.mp h
  rw [hsh, hs]
  simp only [cleanShape, pyStr_some]
  rw [hnan]
  decide

theorem shape_nan_various_witness :
    ({ sampleRaw with shape := some "NaN" } : RawRecord).shape = some "NaN" ∧
    pyStrip (pyLower "NaN") = "nan" ∧
    cleanRecord { sampleRaw with shape := some "NaN" }
      = some { sampleClean with shape := "various" } ∧
    ({ sampleClean with shape := "various" } : CleanRecord).shape = "various" :=
  ⟨rfl, by decide, by decide,
   shape_nan_various { sampleRaw with shape := some "NaN" }
     { sampleClean with shape := "various" } "NaN" rfl (by decide) (by decide)⟩

/-- C1 (the code at the failing input): a surviving raw record whose
country and state cells are missing is cleaned to country "nan" and state
"NAN" — not to "unknown" and "UNKNOWN".  `astype(str)` stringifies the
missing cell to "nan"/"NAN" before the `fillna` sentinel substitution
runs, so that substitution is dead code. -/
theorem missing_country_state_kept_as_nan :
    cleanRecord { sampleRaw with country := none, state := none }
      = some { sampleClean with country := "nan", state := "NAN" } ∧
    ({ sampleClean with country := "nan", state := "NAN" } :
      CleanRecord).country ≠ "unknown" ∧
    ({ sampleClean with country := "nan", state := "NAN" } :
      CleanRecord).state ≠ "UNKNOWN" :=
  ⟨by decide, by decide, by decide⟩

/-- C2 (counterexample): on zero raw records the summary artifact written
by the run is the empty JSON object, not a summary object carrying
`total_sightings = 0` and null statistics. -/
theorem empty_input_summary_not_full :
    isFullSummary (runPipeline []).1 = false := by
  rfl

/-- C2 (amended): when the clean set is empty after filtering — in
particular on zero raw records — the run still terminates with well-formed
artifacts: the summary artifact is the empty JSON object and the globe
artifact is the empty array. -/
theorem empty_clean_set_artifacts (rs : List RawRecord)
    (h : clean_data rs = []) :
    runPipeline rs = (SummaryArtifact.emptyObject, []) := by
  simp only [runPipeline]
  rw [h]
  simp [export_globe_data]

theorem empty_clean_set_artifacts_witness :
    clean_data [] = [] ∧ runPipeline [] = (SummaryArtifact.emptyObject, []) :=
  ⟨rfl, empty_clean_set_artifacts [] rfl⟩

theorem sum_valueCountsAsc {K : Type} [LinearOrder K] (l : List K) :
    ((valueCountsAsc l).map (fun p => p.2)).sum = l.length := by
  unfold valueCountsAsc ascKeys
  rw [List.map_map]
  have h1 : ((fun p : K × Nat => p.2) ∘ fun k => (k, l.count k))
      = fun k => List.count k l := rfl
  rw [h1]
  have h2 : ((List.insertionSort (· ≤ ·) l.dedup).map
        (fun k => List.count k l)).Perm (l.dedup.map fun k => List.count k l) :=
    (List.perm_insertionSort _ _).map _
  rw [h2.sum_eq, List.sum_map_count_dedup_eq_length]

/-- C9: in each of the summary's grouped-count mappings — by year, by
month and by hour — the counts sum over all keys to `total_sightings`. -/
theorem grouped_counts_sum_total (rs : List CleanRecord) :
    ((perform_eda rs).sightings_by_year.map (fun p => p.2)).sum
      = (perform_eda rs).total_sightings ∧
    ((perform_eda rs).sightings_by_month.map (fun p => p.2)).sum
      = (perform_eda rs).total_sightings ∧
    ((perform_eda rs).sightings_by_hour.map (fun p => p.2)).sum
      = (perform_eda rs).total_sightings := by
  refine ⟨?_, ?_, ?_⟩
  · show ((valueCountsAsc (rs.map (fun r => r.year))).map (fun p => p.2)).sum
      = rs.length
    rw [sum_valueCountsAsc, List.length_map]
  · show (((valueCountsAsc (rs.map (fun r => r.month))).map
        (fun p => (monthName p.1, p.2))).map (fun p => p.2)).sum = rs.length
    rw [List.map_map]
    have h : ((fun p : String × Nat => p.2) ∘
        fun p : Nat × Nat => (monthName p.1, p.2)) = fun p : Nat × Nat => p.2 :=
      rfl
    rw [h, sum_valueCountsAsc, List.length_map]
  · show ((valueCountsAsc (rs.map (fun r => r.hour))).map (fun p => p.2)).sum
      = rs.length
    rw [sum_valueCountsAsc, List.length_map]

theorem export_globe_length (rs : List CleanRecord) :
    (export_globe_data rs).length = min MAX_POINTS_ON_GLOBE rs.length := by
  unfold export_globe_data
  split
  next h => subst h; rfl
  next h =>
    split
    next hgt =>
      rw [List.length_map]
      unfold sampleFixedSeed
      rw [List.length_take]
    next hle =>
      rw [List.length_map]
      omega

/-- C7: the globe export is a function of the clean set (hence identical
across runs on the same input) and emits min(10000, n) points: exactly
`MAX_POINTS_ON_GLOBE` of them, drawn by the fixed-seed sample, when the
clean set has more than that many records, and one point per record
otherwise; in particular 15000 records give exactly 10000 points and 500
records give exactly 500. -/
theorem globe_sampling_count (rs : List CleanRecord) :
    (export_globe_data rs).length = min MAX_POINTS_ON_GLOBE rs.length ∧
    (export_globe_data (List.replicate 15000 sampleClean)).length = 10000 ∧
    (export_globe_data (List.replicate 500 sampleClean)).length = 500 := by
  refine ⟨export_globe_length rs, ?_, ?_⟩
  · rw [export_globe_length, List.length_replicate]
    rfl
  · rw [export_globe_length, List.length_replicate]
    rfl

/-- The specification's formulation of the log position `t`: the duration
clamped into [1, 86400], its natural log divided by ln 86400. -/
noncomputable def tSpec (d : ℚ) : ℝ :=
  Real.log ((min (max d 1) 86400 : ℚ) : ℝ) / Real.log 86400

/-- C8: for any duration in the clean range (0, 604800) the exported
magnitude equals 0.03 + t·0.25 with t = ln(clamp(d, 1, 86400))/ln(86400)
in [0, 1], hence the magnitude lies in [0.03, 0.28]; the point's radius is
max(0.01, magnitude) and is therefore at least 0.01. -/
theorem magnitude_radius_bounds (c : CleanRecord)
    (h0 : 0 < c.duration_seconds) (h1 : c.duration_seconds < 604800) :
    0 ≤ tSpec c.duration_seconds ∧ tSpec c.duration_seconds ≤ 1 ∧
    magnitude c.duration_seconds = 0.03 + tSpec c.duration_seconds * 0.25 ∧
    0.03 ≤ magnitude c.duration_seconds ∧ magnitude c.duration_seconds ≤ 0.28 ∧
    (mkGlobePoint c).radius = max 0.01 (magnitude c.duration_seconds) ∧
    0.01 ≤ (mkGlobePoint c).radius := by
  set d := c.duration_seconds with hd
  have hclamp : max (max d (1 / 1000000)) 1 = max d 1 := by
    rw [max_assoc]
    congr 1
    exact max_eq_right (by norm_num)
  have hmageq : magnitude d = 0.03 + tSpec d * 0.25 := by
    simp only [magnitude, tSpec, hclamp, Real.log_one, sub_zero]
  set q : ℚ := min (max d 1) 86400 with hq
  have h1q : (1 : ℚ) ≤ q := le_min (le_max_right d 1) (by norm_num)
  have h2q : q ≤ 86400 := min_le_right _ _
  have h1r : (1 : ℝ) ≤ (q : ℝ) := by exact_mod_cast h1q
  have h2r : (q : ℝ) ≤ 86400 := by exact_mod_cast h2q
  have hlogpos : (0 : ℝ) < Real.log 86400 := Real.log_pos (by norm_num)
  have ht0 : 0 ≤ tSpec d := by
    unfold tSpec
    exact div_nonneg (Real.log_nonneg h1r) (le_of_lt hlogpos)
  have ht1 : tSpec d ≤ 1 := by
    unfold tSpec
    rw [div_le_one hlogpos]
    exact Real.log_le_log (lt_of_lt_of_le one_pos h1r) h2r
  have hrad : (mkGlobePoint c).radius = max 0.01 (magnitude d) := rfl
  refine ⟨ht0, ht1, hmageq, ?_, ?_, hrad, ?_⟩
  · rw [hmageq]; linarith
  · rw [hmageq]; linarith
  · rw [hrad]; exact le_max_left _ _

theorem magnitude_radius_bounds_witness :
    (0 < sampleClean.duration_seconds ∧ sampleClean.duration_seconds < 604800) ∧
    0.01 ≤ (mkGlobePoint sampleClean).radius :=
  ⟨⟨by decide, by decide⟩,
   (magnitude_radius_bounds sampleClean (by decide) (by decide)).2.2.2.2.2.2⟩

/-- The property claimed of one peak key relative to the list of category
values it is drawn from: the key occurs, attains the maximum count, and is
the smallest among the keys attaining that maximum. -/
def IsAscPeak {K : Type} [LinearOrder K] (l : List K) (k : K) : Prop :=
  k ∈ l ∧ (∀ x ∈ l, l.count x ≤ l.count k) ∧
    (∀ x ∈ l, l.count x = l.count k → k ≤ x)

theorem idxmaxAux_spec {K : Type} [LinearOrder K] (ps : List (K × Nat)) :
    ∀ b : K × Nat, List.Pairwise (fun p q : K × Nat => p.1 < q.1) (b :: ps) →
      idxmaxAux b ps ∈ b :: ps ∧
      (∀ p ∈ b :: ps, p.2 ≤ (idxmaxAux b ps).2) ∧
      (∀ p ∈ b :: ps, p.2 = (idxmaxAux b ps).2 → (idxmaxAux b ps).1 ≤ p.1) := by
  induction ps with
  | nil =>
    intro b _
    refine ⟨List.mem_singleton.mpr rfl, ?_, ?_⟩
    · intro p hp
      rw [List.mem_singleton] at hp
      subst hp
      exact le_rfl
    · intro p hp _
      rw [List.mem_singleton] at hp
      subst hp
      exact le_rfl
  | cons q t ih =>
    intro b hpair
    rw [List.pairwise_cons] at hpair
    obtain ⟨hb, hqt⟩ := hpair
    by_cases hcmp : b.2 < q.2
    · obtain ⟨hmem, hmax, hfirst⟩ := ih q hqt
      have hstep : idxmaxAux b (q :: t) = idxmaxAux q t := by
        show (if b.2 < q.2 then idxmaxAux q t else idxmaxAux b t) = idxmaxAux q t
        rw [if_pos hcmp]
      refine ⟨?_, ?_, ?_⟩
      · rw [hstep]
        exact List.mem_cons_of_mem _ hmem
      · intro p hp
        rw [hstep]
        rcases List.mem_cons.mp hp with hpb | hpq
        · subst hpb
          exact le_of_lt (lt_of_lt_of_le hcmp (hmax q (List.mem_cons_self _ _)))
        · exact hmax p hpq
      · intro p hp hpe
        rw [hstep] at hpe ⊢
        rcases List.mem_cons.mp hp with hpb | hpq
        · exfalso
          have h5 := hmax q (List.mem_cons_self _ _)
          rw [hpb] at hpe
          omega
        · exact hfirst p hpq hpe
    · have hbt : List.Pairwise (fun p q : K × Nat => p.1 < q.1) (b :: t) := by
        rw [List.pairwise_cons]
        exact ⟨fun x hx => hb x (List.mem_cons_of_mem _ hx),
          (List.pairwise_cons.mp hqt).2⟩
      obtain ⟨hmem, hmax, hfirst⟩ := ih b hbt
      have hstep : idxmaxAux b (q :: t) = idxmaxAux b t := by
        show (if b.2 < q.2 then idxmaxAux q t else idxmaxAux b t) = idxmaxAux b t
        rw [if_neg hcmp]
      refine ⟨?_, ?_, ?_⟩
      · rw [hstep]
        rcases List.mem_cons.mp hmem with h1 | h1
        · rw [h1]
          exact List.mem_cons_self _ _
        · exact List.mem_cons_of_mem _ (List.mem_cons_of_mem _ h1)
      · intro p hp
        rw [hstep]
        rcases List.mem_cons.mp hp with h1 | h1
        · rw [h1]
          exact hmax b (List.mem_cons_self _ _)
        · rcases List.mem_cons.mp h1 with h2 | h2
          · rw [h2]
            exact le_trans (Nat.le_of_not_lt hcmp)
              (hmax b (List.mem_cons_self _ _))
          · exact hmax p (List.mem_cons_of_mem _ h2)
      · intro p hp hpe
        rw [hstep] at hpe ⊢
        rcases List.mem_cons.mp hp with h1 | h1
        · rw [h1] at hpe ⊢
          exact hfirst b (List.mem_cons_self _ _) hpe
        · rcases List.mem_cons.mp h1 with h2 | h2
          · rw [h2] at hpe ⊢
            have h3 : b.2 ≤ (idxmaxAux b t).2 := hmax b (List.mem_cons_self _ _)
            have h4 : b.2 = (idxmaxAux b t).2 := by
              have h6 : q.2 ≤ b.2 := Nat.le_of_not_lt hcmp
              omega
            have h5 := hfirst b (List.mem_cons_self _ _) h4
            exact le_of_lt (lt_of_le_of_lt h5 (hb q (List.mem_cons_self _ _)))
          · exact hfirst p (List.mem_cons_of_mem _ h2) hpe

theorem peakOfList_spec {K : Type} [LinearOrder K] (l : List K) (hl : l ≠ []) :
    ∃ k, idxmax (valueCountsAsc l) = some k ∧ IsAscPeak l k := by
  have hdne : l.dedup ≠ [] := by
    simpa [List.dedup_eq_nil] using hl
  have hasc : ascKeys l ≠ [] := by
    intro hcon
    apply hdne
    have hlen := (List.perm_insertionSort (· ≤ ·) l.dedup).length_eq
    rw [show ascKeys l = List.insertionSort (· ≤ ·) l.dedup from rfl] at hcon
    rw [hcon] at hlen
    exact List.length_eq_zero.mp hlen.symm
  have hsorted : List.Sorted (· ≤ ·) (ascKeys l) := List.sorted_insertionSort _ _
  have hnodup : (ascKeys l).Nodup :=
    ((List.perm_insertionSort (· ≤ ·) l.dedup).nodup_iff).mpr (List.nodup_dedup l)
  have hpairlt : List.Pairwise (· < ·) (ascKeys l) :=
    (hsorted.and hnodup).imp (fun h => lt_of_le_of_ne h.1 h.2)
  have hpairs : List.Pairwise (fun p q : K × Nat => p.1 < q.1)
      (valueCountsAsc l) := by
    unfold valueCountsAsc
    rw [List.pairwise_map]
    exact hpairlt
  have hmem_asc : ∀ x : K, x ∈ ascKeys l ↔ x ∈ l := by
    intro x
    show x ∈ List.insertionSort (· ≤ ·) l.dedup ↔ x ∈ l
    rw [(List.perm_insertionSort (· ≤ ·) l.dedup).mem_iff, List.mem_dedup]
  cases hvc : valueCountsAsc l with
  | nil =>
    exfalso
    apply hasc
    unfold valueCountsAsc at hvc
    exact List.map_eq_nil.mp hvc
  | cons p t =>
    rw [hvc] at hpairs
    obtain ⟨hmem, hmax, hfirst⟩ := idxmaxAux_spec t p hpairs
    rw [← hvc] at hmem
    have hres : idxmaxAux p t ∈ (ascKeys l).map (fun k => (k, l.count k)) := hmem
    obtain ⟨k, hk, hkeq⟩ := List.mem_map.mp hres
    refine ⟨k, ?_, (hmem_asc k).mp hk, ?_, ?_⟩
    · show some (idxmaxAux p t).1 = some k
      rw [← hkeq]
    · intro x hx
      have hxp : (x, l.count x) ∈ p :: t := by
        rw [← hvc]
        exact List.mem_map_of_mem _ ((hmem_asc x).mpr hx)
      have := hmax (x, l.count x) hxp
      rw [← hkeq] at this
      exact this
    · intro x hx hcnt
      have hxp : (x, l.count x) ∈ p :: t := by
        rw [← hvc]
        exact List.mem_map_of_mem _ ((hmem_asc x).mpr hx)
      have h2 : (x, l.count x).2 = (idxmaxAux p t).2 := by
        rw [← hkeq]
        exact hcnt
      have := hfirst (x, l.count x) hxp h2
      rw [← hkeq] at this
      exact this

/-- C3: on a nonempty clean set, each of peak_month, peak_hour_numeric and
peak_year_of_reports names a category attaining the maximum count of its
grouping, and when several categories tie for that maximum the smallest
key — earliest month, smallest hour, earliest year — is the one chosen. -/
theorem peak_categories (rs : List CleanRecord) (hne : rs ≠ []) :
    (∃ m, peakMonthKey rs = some m ∧
      (perform_eda rs).peak_month = monthName m ∧
      IsAscPeak (rs.map (fun r => r.month)) m) ∧
    (∃ h, peakHourKey rs = some h ∧
      (perform_eda rs).peak_hour_numeric = some h ∧
      IsAscPeak (rs.map (fun r => r.hour)) h) ∧
    (∃ y, peakYearKey rs = some y ∧
      (perform_eda rs).peak_year_of_reports = toString y ∧
      IsAscPeak (rs.map (fun r => r.year)) y) := by
  obtain ⟨m, hm1, hm2⟩ :=
    peakOfList_spec (rs.map (fun r => r.month)) (by simpa using hne)
  obtain ⟨h, hh1, hh2⟩ :=
    peakOfList_spec (rs.map (fun r => r.hour)) (by simpa using hne)
  obtain ⟨y, hy1, hy2⟩ :=
    peakOfList_spec (rs.map (fun r => r.year)) (by simpa using hne)
  have hm1' : peakMonthKey rs = some m := hm1
  have hh1' : peakHourKey rs = some h := hh1
  have hy1' : peakYearKey rs = some y := hy1
  refine ⟨⟨m, hm1', ?_, hm2⟩, ⟨h, hh1', ?_, hh2⟩, ⟨y, hy1', ?_, hy2⟩⟩
  · simp only [perform_eda]
    rw [hm1']
  · simp only [perform_eda]
    exact hh1'
  · simp only [perform_eda]
    rw [hy1']

theorem peak_categories_witness :
    ([sampleClean] : List CleanRecord) ≠ [] ∧
    ((∃ m, peakMonthKey [sampleClean] = some m ∧
        (perform_eda [sampleClean]).peak_month = monthName m ∧
        IsAscPeak ([sampleClean].map (fun r => r.month)) m) ∧
      (∃ h, peakHourKey [sampleClean] = some h ∧
        (perform_eda [sampleClean]).peak_hour_numeric = some h ∧
        IsAscPeak ([sampleClean].map (fun r => r.hour)) h) ∧
      (∃ y, peakYearKey [sampleClean] = some y ∧
        (perform_eda [sampleClean]).peak_year_of_reports = toString y ∧
        IsAscPeak ([sampleClean].map (fun r => r.year)) y)) :=
  ⟨by decide, peak_categories [sampleClean] (by decide)⟩
